import Mathlib

/-!
Verification of the reaction-task generator and dispatcher of `rmgpy/rmg/react.py`
and of the Clar-LP solver wrappers of `rmgpy/molecule/clar_lp.py`, as a shallow
embedding in Lean 4.

Conventions of the embedding:
* Python species objects become the structure `Species` (a reactivity flag plus the
  string form `str(spc)` used by the size heuristic); aliasing questions are treated
  separately in a heap model (`SpeciesData`, `Heap`).
* numpy flag arrays become functions `Nat → Bool` (indexing never fails on arrays of
  sufficient size, so total functions are faithful).
* Python lists become Lean lists; `xrange(i, n)` becomes `xrangeFrom i n`.
* Exceptions become `Except` values; `PyErr` carries the exception's identity.
* Floating-point memory readings are modelled over `ℚ`; the code only divides,
  floors and compares them, which ℚ performs exactly.
-/

namespace RMG

/-- A species as seen by this core: an opaque entity carrying a `reactive` flag
(`spc.reactive` in the source) and its string form (`str(spc)`, used by the
`len(str(...)) > nAFS` size heuristic in `reactAll`). -/
structure Species where
  reactive : Bool
  label : String
deriving DecidableEq, Repr

/-- `xrange(i, n)`: the indices `i, i+1, …, n-1`. -/
def xrangeFrom (i n : Nat) : List Nat :=
  List.range' i (n - i)

theorem mem_xrangeFrom {m i n : Nat} : m ∈ xrangeFrom i n ↔ i ≤ m ∧ m < n := by
  simp only [xrangeFrom, List.mem_range'_1]
  omega

/-- Lines 126–127 of `react.py`: unimolecular tuples
`[(coreSpcList[i],) for i in xrange(numOldCoreSpecies)
  if (unimolecularReact[i] and coreSpcList[i].reactive)]`. -/
def buildUniTuples (spc : Nat → Species) (n : Nat) (uni : Nat → Bool) :
    List (List Species) :=
  (List.range n).filterMap fun i =>
    if uni i && (spc i).reactive then some [spc i] else none

/-- Lines 129–135 of `react.py`: bimolecular tuples, `j` ranging over `xrange(i, n)`
(self-pairs included), appended when `bimolecularReact[i,j]` and both reactive. -/
def buildBiTuples (spc : Nat → Species) (n : Nat) (bi : Nat → Nat → Bool) :
    List (List Species) :=
  (List.range n).flatMap fun i =>
    (xrangeFrom i n).filterMap fun j =>
      if bi i j && ((spc i).reactive && (spc j).reactive) then
        some [spc i, spc j]
      else none

/-- Lines 137–144 of `react.py`: trimolecular tuples for `i ≤ j ≤ k`, appended when
`trimolecularReact[i,j,k]` and all three species are reactive. -/
def buildTriTuples (spc : Nat → Species) (n : Nat) (tri : Nat → Nat → Nat → Bool) :
    List (List Species) :=
  (List.range n).flatMap fun i =>
    (xrangeFrom i n).flatMap fun j =>
      (xrangeFrom j n).filterMap fun k =>
        if tri i j k && ((spc i).reactive && ((spc j).reactive && (spc k).reactive)) then
          some [spc i, spc j, spc k]
        else none

/-- The tuple-enumeration phase of `reactAll` (lines 125–144): `spcTuples` after the
three loops. `trimolecularReact=None` (here `tri = none`) skips the third loop. -/
def buildTuples (spc : Nat → Species) (n : Nat) (uni : Nat → Bool)
    (bi : Nat → Nat → Bool) (tri : Option (Nat → Nat → Nat → Bool)) :
    List (List Species) :=
  (buildUniTuples spc n uni ++ buildBiTuples spc n bi) ++
    (match tri with
     | none => []
     | some t => buildTriTuples spc n t)

theorem mem_buildUniTuples {spc : Nat → Species} {n : Nat} {uni : Nat → Bool}
    {t : List Species} :
    t ∈ buildUniTuples spc n uni ↔
      ∃ i, i < n ∧ uni i = true ∧ (spc i).reactive = true ∧ t = [spc i] := by
  simp only [buildUniTuples, List.mem_filterMap, List.mem_range,
    Option.ite_none_right_eq_some, Option.some.injEq, Bool.and_eq_true]
  constructor
  · rintro ⟨i, hi, ⟨h1, h2⟩, ht⟩
    exact ⟨i, hi, h1, h2, ht.symm⟩
  · rintro ⟨i, hi, h1, h2, ht⟩
    exact ⟨i, hi, ⟨h1, h2⟩, ht.symm⟩

theorem mem_buildBiTuples {spc : Nat → Species} {n : Nat} {bi : Nat → Nat → Bool}
    {t : List Species} :
    t ∈ buildBiTuples spc n bi ↔
      ∃ i j, i ≤ j ∧ j < n ∧ bi i j = true ∧
        (spc i).reactive = true ∧ (spc j).reactive = true ∧ t = [spc i, spc j] := by
  simp only [buildBiTuples, List.mem_flatMap, List.mem_filterMap, List.mem_range,
    mem_xrangeFrom, Option.ite_none_right_eq_some, Option.some.injEq, Bool.and_eq_true]
  constructor
  · rintro ⟨i, hi, j, ⟨hij, hj⟩, ⟨h1, h2, h3⟩, ht⟩
    exact ⟨i, j, hij, hj, h1, h2, h3, ht.symm⟩
  · rintro ⟨i, j, hij, hj, h1, h2, h3, ht⟩
    exact ⟨i, lt_of_le_of_lt hij hj, j, ⟨hij, hj⟩, ⟨h1, h2, h3⟩, ht.symm⟩

theorem mem_buildTriTuples {spc : Nat → Species} {n : Nat}
    {tri : Nat → Nat → Nat → Bool} {t : List Species} :
    t ∈ buildTriTuples spc n tri ↔
      ∃ i j k, i ≤ j ∧ j ≤ k ∧ k < n ∧ tri i j k = true ∧
        (spc i).reactive = true ∧ (spc j).reactive = true ∧ (spc k).reactive = true ∧
        t = [spc i, spc j, spc k] := by
  simp only [buildTriTuples, List.mem_flatMap, List.mem_filterMap, List.mem_range,
    mem_xrangeFrom, Option.ite_none_right_eq_some, Option.some.injEq, Bool.and_eq_true]
  constructor
  · rintro ⟨i, hi, j, ⟨hij, hj⟩, k, ⟨hjk, hk⟩, ⟨h1, h2, h3, h4⟩, ht⟩
    exact ⟨i, j, k, hij, hjk, hk, h1, h2, h3, h4, ht.symm⟩
  · rintro ⟨i, j, k, hij, hjk, hk, h1, h2, h3, h4, ht⟩
    exact ⟨i, lt_of_le_of_lt (le_trans hij hjk) hk, j, ⟨hij, lt_of_le_of_lt hjk hk⟩,
      k, ⟨hjk, hk⟩, ⟨h1, h2, h3, h4⟩, ht.symm⟩

/-- **C4.** The tuple enumeration of `reactAll` produces exactly: `(spc i)` for
`i < n` with `uni i` and `spc i` reactive; `(spc i, spc j)` for `i ≤ j < n` with
`bi i j` and both reactive (self-pairs included); `(spc i, spc j, spc k)` for
`i ≤ j ≤ k < n` with `tri i j k` and all three reactive (only when the
trimolecular flags are supplied) — no other tuples, so in particular a
non-reactive species never appears in any tuple. -/
theorem buildTuples_mem_iff (spc : Nat → Species) (n : Nat) (uni : Nat → Bool)
    (bi : Nat → Nat → Bool) (tri : Option (Nat → Nat → Nat → Bool)) (t : List Species) :
    t ∈ buildTuples spc n uni bi tri ↔
      ((∃ i, i < n ∧ uni i = true ∧ (spc i).reactive = true ∧ t = [spc i]) ∨
       (∃ i j, i ≤ j ∧ j < n ∧ bi i j = true ∧
         (spc i).reactive = true ∧ (spc j).reactive = true ∧ t = [spc i, spc j]) ∨
       (∃ f i j k, tri = some f ∧ i ≤ j ∧ j ≤ k ∧ k < n ∧ f i j k = true ∧
         (spc i).reactive = true ∧ (spc j).reactive = true ∧ (spc k).reactive = true ∧
         t = [spc i, spc j, spc k])) := by
  cases tri with
  | none =>
    simp [buildTuples, mem_buildUniTuples, mem_buildBiTuples]
  | some f =>
    simp only [buildTuples, List.mem_append, mem_buildUniTuples, mem_buildBiTuples,
      mem_buildTriTuples, Option.some.injEq]
    constructor
    · rintro ((h | h) | h)
      · exact Or.inl h
      · exact Or.inr (Or.inl h)
      · rcases h with ⟨i, j, k, h⟩
        exact Or.inr (Or.inr ⟨f, i, j, k, rfl, h⟩)
    · rintro (h | h | ⟨g, i, j, k, hg, h⟩)
      · exact Or.inl (Or.inl h)
      · exact Or.inl (Or.inr h)
      · exact Or.inr ⟨i, j, k, hg ▸ h⟩

/-- The identity of a raised Python exception: `ZeroDivisionError` (raised by
`divmod` on a zero divisor) or any other exception carrying a type name and
message. -/
inductive PyErr where
  | zeroDivisionError
  | named (typeName : String) (msg : String)
deriving DecidableEq, Repr

/-- Python `divmod(a, u)` on exact reals: raises `ZeroDivisionError` when `u = 0`,
otherwise returns `(⌊a/u⌋, a - u*⌊a/u⌋)` (the float result of `divmod` on
nonnegative finite floats is the floor of the quotient). -/
def pydivmod (a u : ℚ) : Except PyErr (ℤ × ℚ) :=
  if u = 0 then .error .zeroDivisionError
  else .ok (⌊a / u⌋, a - u * ⌊a / u⌋)

/-- Python `str.startswith`: a prefix test on the character sequence. -/
def pyStartsWith (s pat : String) : Bool :=
  pat.data.isPrefixOf s.data

/-- `max(1, int(min(maxproc, tmp[0])))` of lines 71–72/80–81.  `int(...)` truncates
a float toward zero; both arguments of the `min` are integral here, so over `ℤ`
the truncation is the identity. -/
def clampProcnum (maxproc : ℤ) (capacity : ℤ) : ℤ :=
  max 1 (min maxproc capacity)

/-- Lines 63–84 of `react.py`: the worker-count (`procnum`) computation of `react`.
The four memory-telemetry queries (`psutil.virtual_memory().free`,
`psutil.Process(os.getpid()).memory_info()[0]`, `psutil.virtual_memory().available`,
`resource.getrusage(...).ru_maxrss`) are external calls that may themselves raise,
so each is passed in as an `Except` value (raw readings in bytes); the code turns
them into GB by dividing by `1000.0 ** 3` before calling `divmod`.  A raised
exception anywhere propagates: there is no `try`/`except` in `react`. -/
def reactProcnum (platform : String) (maxproc : ℤ)
    (virtFree procMemInfo virtAvail ruMaxrss : Except PyErr ℚ) :
    Except PyErr ℤ :=
  if pyStartsWith platform "linux" then
    match virtFree with
    | .error e => .error e
    | .ok free =>
      match procMemInfo with
      | .error e => .error e
      | .ok use =>
        match pydivmod (free / 1000 ^ 3) (use / 1000 ^ 3) with
        | .error e => .error e
        | .ok tmp => .ok (clampProcnum maxproc tmp.1)
  else if platform = "darwin" then
    match virtAvail with
    | .error e => .error e
    | .ok avail =>
      match ruMaxrss with
      | .error e => .error e
      | .ok use =>
        match pydivmod (avail / 1000 ^ 3) (use / 1000 ^ 3) with
        | .error e => .error e
        | .ok tmp => .ok (clampProcnum maxproc tmp.1)
  else
    .ok 1

/-- **C2 counterexample.** A zero process-memory reading does not yield a worker
count at all: `divmod(memoryavailable, 0.0)` raises `ZeroDivisionError`, so the
computation raises instead of returning an integer in `[1, maxproc]`. -/
theorem reactProcnum_zero_reading_raises :
    reactProcnum "linux" 4 (.ok (8 * 1000 ^ 3)) (.ok 0) (.ok 0) (.ok 0) =
      .error PyErr.zeroDivisionError := by
  simp [reactProcnum, pydivmod, pyStartsWith]

theorem div_scale_floor_eq (a u : ℚ) (hu : u ≠ 0) :
    ⌊(a / 1000 ^ 3) / (u / 1000 ^ 3)⌋ = ⌊a / u⌋ := by
  have : a / 1000 ^ 3 / (u / 1000 ^ 3) = a / u := by
    field_simp
  rw [this]

/-- **C2 (amended).** For `maxproc ≥ 1` and strictly positive memory readings, the
worker-count computation of `react` (on both telemetry platforms) returns exactly
`max 1 (min maxproc ⌊available / use⌋)`, an integer `n` with `1 ≤ n ≤ maxproc`.
(The unamended claim also demanded this for a zero process-memory reading, where
the code instead raises `ZeroDivisionError`.) -/
theorem reactProcnum_positive_readings (maxproc : ℤ) (a u : ℚ)
    (vA rM : Except PyErr ℚ) (hmax : 1 ≤ maxproc) (hu : 0 < u) :
    reactProcnum "linux" maxproc (.ok a) (.ok u) vA rM =
        .ok (max 1 (min maxproc ⌊a / u⌋)) ∧
    reactProcnum "darwin" maxproc vA rM (.ok a) (.ok u) =
        .ok (max 1 (min maxproc ⌊a / u⌋)) ∧
    1 ≤ max 1 (min maxproc ⌊a / u⌋) ∧
    max 1 (min maxproc ⌊a / u⌋) ≤ maxproc := by
  have hu0 : u ≠ 0 := ne_of_gt hu
  have hscale : (u / 1000 ^ 3 : ℚ) ≠ 0 := by
    simp [div_eq_zero_iff, hu0]
  refine ⟨?_, ?_, ?_, ?_⟩
  · simp [reactProcnum, pydivmod, hscale, div_scale_floor_eq a u hu0, clampProcnum,
      pyStartsWith]
  · simp [reactProcnum, pydivmod, hscale, div_scale_floor_eq a u hu0, clampProcnum,
      pyStartsWith]
  · exact le_max_left 1 _
  · exact max_le hmax (min_le_left _ _)

/-- **C2 witness.** `maxproc = 4`, 8 GB available, 2 GB in use: worker count 4. -/
theorem reactProcnum_positive_readings_witness :
    reactProcnum "linux" 4 (.ok (8 * 1000 ^ 3)) (.ok (2 * 1000 ^ 3)) (.ok 0) (.ok 0) =
        .ok (max 1 (min 4 ⌊(8 * 1000 ^ 3 : ℚ) / (2 * 1000 ^ 3)⌋)) ∧
    (1 : ℤ) ≤ max 1 (min 4 ⌊(8 * 1000 ^ 3 : ℚ) / (2 * 1000 ^ 3)⌋) := by
  have h := reactProcnum_positive_readings 4 (8 * 1000 ^ 3) (2 * 1000 ^ 3)
    (.ok 0) (.ok 0) (by norm_num) (by norm_num)
  exact ⟨h.1, h.2.2.1⟩

/-- **C3 counterexample.** On the linux telemetry path a failing telemetry query is
not degraded to a worker count of 1: the exception propagates out of `react`
(there is no `try`/`except` around the `psutil` calls), aborting reaction
generation. -/
theorem reactProcnum_telemetry_error_propagates :
    reactProcnum "linux" 4 (.error (PyErr.named "OSError" "psutil failed"))
        (.ok 0) (.ok 0) (.ok 0) =
      .error (PyErr.named "OSError" "psutil failed") := by
  rfl

/-- **C3 (amended).** `react` uses the fixed worker count 1 only on platforms other
than linux and darwin, where it never consults telemetry; on the linux and darwin
paths, a raising telemetry query propagates its exception out of the worker-count
computation (reaction generation aborts) rather than degrading to 1. -/
theorem reactProcnum_fallback_and_propagation (maxproc : ℤ) (platform : String)
    (vF pM vA rM : Except PyErr ℚ)
    (hp1 : pyStartsWith platform "linux" = false) (hp2 : platform ≠ "darwin") :
    reactProcnum platform maxproc vF pM vA rM = .ok 1 ∧
    (∀ e : PyErr, reactProcnum "linux" maxproc (.error e) pM vA rM = .error e) ∧
    (∀ (e : PyErr) (q : ℚ),
      reactProcnum "linux" maxproc (.ok q) (.error e) vA rM = .error e) ∧
    (∀ e : PyErr, reactProcnum "darwin" maxproc vF pM (.error e) rM = .error e) ∧
    (∀ (e : PyErr) (q : ℚ),
      reactProcnum "darwin" maxproc vF pM (.ok q) (.error e) = .error e) := by
  refine ⟨?_, ?_, ?_, ?_, ?_⟩
  · simp [reactProcnum, hp1, hp2]
  · intro e; rfl
  · intro e q; rfl
  · intro e; rfl
  · intro e q; rfl

/-- **C3 witness.** On platform `win32` the worker count is the fixed 1. -/
theorem reactProcnum_fallback_witness :
    reactProcnum "win32" 4 (.ok 0) (.ok 0) (.ok 0) (.ok 0) = .ok 1 :=
  (reactProcnum_fallback_and_propagation 4 "win32" (.ok 0) (.ok 0) (.ok 0) (.ok 0)
    (by decide) (by decide)).1

/-- An element of the Python lists `splitListTmp` / `splitList[i]`: originally a
family name (a `str`); lines 158, 161, … overwrite hot entries of `splitListTmp`
with the empty list `[]`, so the residual partition is heterogeneous. -/
inductive FamEntry where
  | fam (s : String)
  | blank
deriving DecidableEq, Repr

/-- The eleven hardcoded hot families of the `elif` chain, lines 157–189, in chain
order. -/
def hotFamilies : List String :=
  ["H_Abstraction", "R_Recombination", "Intra_Disproportionation",
   "Intra_RH_Add_Endocyclic", "Singlet_Carbene_Intra_Disproportionation",
   "Intra_ene_reaction", "Disproportionation", "1,4_Linear_birad_scission",
   "R_Addition_MultipleBond", "2+2_cycloaddition_Cd", "Diels_alder_addition"]

/-- A run of the uniform `elif` chain of lines 156–189 against the candidate
names `cands`: `if splitListTmp[i] == c1: … elif splitListTmp[i] == c2: …`; the
branch for candidate `c` yields the literal singleton `[c]`. -/
def chainStep (cands : List String) (s : String) : Option (List FamEntry) :=
  match cands with
  | [] => none
  | c :: rest => if s = c then some [FamEntry.fam c] else chainStep rest s

/-- One iteration of the loop body, lines 156–189: the `elif` chain on the current
entry of `splitListTmp`, with one branch per hot family, in chain order.  `some p`
means a branch fired, `p` is the singleton appended to `splitList` (and the entry
is overwritten with `[]`). -/
def splitStep (s : String) : Option (List FamEntry) :=
  chainStep hotFamilies s

/-- Whether a family name is one the `elif` chain isolates. -/
def isHot (s : String) : Bool :=
  (splitStep s).isSome

theorem chainStep_some {cands : List String} {s : String} {p : List FamEntry}
    (h : chainStep cands s = some p) : p = [FamEntry.fam s] := by
  induction cands with
  | nil => exact Option.noConfusion h
  | cons c rest ih =>
    rw [chainStep] at h
    by_cases hc : s = c
    · rw [if_pos hc] at h
      injection h with h2
      rw [← h2, hc]
    · rw [if_neg hc] at h
      exact ih h

theorem splitStep_some {s : String} {p : List FamEntry} (h : splitStep s = some p) :
    p = [FamEntry.fam s] :=
  chainStep_some h

/-- Lines 148–191 of `react.py`: the partition construction.  Walking the registry
(= the initial `splitListTmp`), each hot entry is overwritten with `[]` (`blank`)
and its singleton appended to `splitList`; the first component is the list of
singletons in encounter order, the second the mutated `splitListTmp`. -/
def splitParts : List String → List (List FamEntry) × List FamEntry
  | [] => ([], [])
  | s :: rest =>
    let r := splitParts rest
    match splitStep s with
    | some p => (p :: r.1, FamEntry.blank :: r.2)
    | none => (r.1, FamEntry.fam s :: r.2)

/-- Line 191: `splitList.append(splitListTmp)` — the mutated residual list becomes
the last partition. -/
def splitList (registry : List String) : List (List FamEntry) :=
  (splitParts registry).1 ++ [(splitParts registry).2]

/-- Lines 150–152: `splitListOrig`, the unmodified registry, appended whole to
small tuples. -/
def splitListOrig (registry : List String) : List FamEntry :=
  registry.map FamEntry.fam

/-- The family names a task's family list denotes (the `[]` placeholders denote no
family: `only_families` membership tests never match them). -/
def famNames (l : List FamEntry) : List String :=
  l.filterMap fun e =>
    match e with
    | FamEntry.fam s => some s
    | FamEntry.blank => none

theorem famNames_append (l1 l2 : List FamEntry) :
    famNames (l1 ++ l2) = famNames l1 ++ famNames l2 := by
  simp [famNames]

theorem famNames_splitListOrig (registry : List String) :
    famNames (splitListOrig registry) = registry := by
  induction registry with
  | nil => rfl
  | cons s rest ih => simp [splitListOrig, famNames] at ih ⊢; exact ih

theorem splitParts_fst (registry : List String) :
    (splitParts registry).1 =
      (registry.filter (fun s => isHot s)).map (fun s => [FamEntry.fam s]) := by
  induction registry with
  | nil => rfl
  | cons s rest ih =>
    rw [splitParts]
    rcases h : splitStep s with _ | p
    · have hh : isHot s = false := by simp [isHot, h]
      simp [List.filter_cons, hh, ih]
    · have hh : isHot s = true := by simp [isHot, h]
      simp [List.filter_cons, hh, ih, splitStep_some h]

theorem splitParts_snd_names (registry : List String) :
    famNames (splitParts registry).2 = registry.filter (fun s => !isHot s) := by
  induction registry with
  | nil => rfl
  | cons s rest ih =>
    rw [splitParts]
    rcases h : splitStep s with _ | p
    · have hh : isHot s = false := by simp [isHot, h]
      simp [List.filter_cons, hh, famNames] at ih ⊢
      exact ih
    · have hh : isHot s = true := by simp [isHot, h]
      simp [List.filter_cons, hh, famNames] at ih ⊢
      exact ih

theorem splitParts_snd_blanks (registry : List String) :
    (splitParts registry).2.count FamEntry.blank =
      (registry.filter (fun s => isHot s)).length := by
  induction registry with
  | nil => rfl
  | cons s rest ih =>
    rw [splitParts]
    rcases h : splitStep s with _ | p
    · have hh : isHot s = false := by simp [isHot, h]
      simp [List.filter_cons, hh, List.count_cons, ih]
    · have hh : isHot s = true := by simp [isHot, h]
      simp [List.filter_cons, hh, List.count_cons, ih]

/-- The names covered by the partitions, joined, are a permutation of the registry
(each family exactly once across one tuple's task set). -/
theorem splitList_names_perm (registry : List String) :
    List.Perm ((splitList registry).map famNames).flatten registry := by
  have h1 : ((splitParts registry).1.map famNames).flatten =
      registry.filter (fun s => isHot s) := by
    rw [splitParts_fst]
    induction registry.filter (fun s => isHot s) with
    | nil => rfl
    | cons s rest ih => simp [famNames] at ih ⊢; exact ih
  have h2 : ((splitList registry).map famNames).flatten =
      registry.filter (fun s => isHot s) ++ registry.filter (fun s => !isHot s) := by
    simp [splitList, h1, splitParts_snd_names]
  rw [h2]
  exact List.filter_append_perm _ registry

/-- The partitions' name sets are pairwise disjoint when the registry has no
duplicate names. -/
theorem splitList_names_disjoint (registry : List String) (hnd : registry.Nodup) :
    ((splitList registry).map famNames).Pairwise
      (fun l1 l2 => ∀ s ∈ l1, s ∉ l2) := by
  have hperm := splitList_names_perm registry
  have : (((splitList registry).map famNames).flatten).Nodup :=
    hperm.nodup_iff.mpr hnd
  exact (List.nodup_flatten.mp this).2

/-- An element of a task tuple (an entry of `spcTuplestmp`): the Python tuples are
heterogeneous, holding the species of the reactant tuple followed by one family
list. -/
inductive TaskElem where
  | spc (s : Species)
  | fams (l : List FamEntry)
deriving DecidableEq, Repr

/-- Python `repr` of a family-list element (family names contain no quote
characters), entering the size test of lines 222–224 only through its length. -/
def pyReprFamEntry : FamEntry → String
  | FamEntry.fam s => "'" ++ s ++ "'"
  | FamEntry.blank => "[]"

/-- Python `str` of a list of family entries. -/
def pyStrFamList (l : List FamEntry) : String :=
  "[" ++ String.intercalate ", " (l.map pyReprFamEntry) ++ "]"

/-- Python `str` of a task-tuple element: `str(species)` is the species' string
form (`label`); `str` of a family list renders the list. -/
def pyStrTaskElem : TaskElem → String
  | TaskElem.spc s => s.label
  | TaskElem.fams l => pyStrFamList l

/-- Line 194: `nAFS = 10`, the size threshold of the splitting heuristic. -/
def nAFS : Nat := 10

/-- `len(str(x)) > nAFS` on a species (the tests of lines 201, 211–212). -/
def spcLarge (s : Species) : Bool :=
  decide (nAFS < s.label.length)

/-- `len(str(x)) > nAFS` on a task-tuple element (the stale-variable tests of
lines 222–224 read elements of `tmpk`, which may be species or family lists). -/
def elemLarge (e : TaskElem) : Bool :=
  decide (nAFS < (pyStrTaskElem e).length)

/-- `tmpk = list(tmpj); tmpk.append(tmpl); spcTuplestmp.append(tuple(tmpk))`: the
task appended for reactant tuple `tmpj` with family list `tmpl`. -/
def mkTask (tmpj : List Species) (tmpl : List FamEntry) : List TaskElem :=
  tmpj.map TaskElem.spc ++ [TaskElem.fams tmpl]

/-- The shared body of the three branches: when the tuple is large, one task per
partition of `slist` is appended (and `tmpk` ends as the task of the last
partition); when small, the single full-registry task is appended.  Returns the
appended tasks and the value `tmpk` holds after the branch. -/
def branchTasks (slist : List (List FamEntry)) (sorig : List FamEntry)
    (tmpj : List Species) (isLarge : Bool) (tmpk? : Option (List TaskElem)) :
    List (List TaskElem) × Option (List TaskElem) :=
  if isLarge then
    (slist.map (mkTask tmpj),
     match slist.getLast? with
     | some tmpl => some (mkTask tmpj tmpl)
     | none => tmpk?)
  else
    ([mkTask tmpj sorig], some (mkTask tmpj sorig))

/-- Lines 197–232 of `react.py`: the loop appending a family list to each reactant
tuple, producing `spcTuplestmp`.  `tmpk` is a loop-local scratch variable whose
value persists across iterations; line 221 tests `len(tmpk) == 3` — the value left
over from a previous iteration — where the symmetric branches test `len(tmpj)`.
The threaded `Option (List TaskElem)` is `tmpk`'s current value (`none` before the
first assignment; evaluating `len(tmpk)` then raises `UnboundLocalError`).  A
tuple matching no branch of the `if`/`elif` chain is silently skipped and `tmpk`
keeps its value. -/
def appendFamilies (slist : List (List FamEntry)) (sorig : List FamEntry) :
    List (List Species) → Option (List TaskElem) →
      Except PyErr (List (List TaskElem))
  | [], _ => .ok []
  | tmpj :: rest, tmpk? =>
    if tmpj.length = 1 then
      let b := branchTasks slist sorig tmpj
        (spcLarge (tmpj.getD 0 ⟨false, ""⟩)) tmpk?
      match appendFamilies slist sorig rest b.2 with
      | .error e => .error e
      | .ok tail => .ok (b.1 ++ tail)
    else if tmpj.length = 2 then
      let b := branchTasks slist sorig tmpj
        (spcLarge (tmpj.getD 0 ⟨false, ""⟩) || spcLarge (tmpj.getD 1 ⟨false, ""⟩))
        tmpk?
      match appendFamilies slist sorig rest b.2 with
      | .error e => .error e
      | .ok tail => .ok (b.1 ++ tail)
    else
      match tmpk? with
      | none =>
        .error (PyErr.named "UnboundLocalError"
          "local variable tmpk referenced before assignment")
      | some tmpk =>
        if tmpk.length = 3 then
          let b := branchTasks slist sorig tmpj
            (elemLarge (tmpk.getD 0 (TaskElem.fams [])) ||
              (elemLarge (tmpk.getD 1 (TaskElem.fams [])) ||
                elemLarge (tmpk.getD 2 (TaskElem.fams [])))) tmpk?
          match appendFamilies slist sorig rest b.2 with
          | .error e => .error e
          | .ok tail => .ok (b.1 ++ tail)
        else
          appendFamilies slist sorig rest tmpk?

/-- **C5 counterexample.** For registry `["H_Abstraction", "X"]` (one hot family
present), the residual partition is the Python list `[[], 'X']`: it contains the
empty-list placeholder written by line 158 in addition to the remaining family
name, so it is not "exactly the remaining family names and nothing else". -/
theorem splitList_residual_counterexample :
    splitList ["H_Abstraction", "X"] =
      [[FamEntry.fam "H_Abstraction"], [FamEntry.blank, FamEntry.fam "X"]] ∧
    FamEntry.blank ∈ (splitParts ["H_Abstraction", "X"]).2 ∧
    (splitParts ["H_Abstraction", "X"]).2 ≠ [FamEntry.fam "X"] := by
  refine ⟨by decide, by decide, by decide⟩

/-- **C5 (amended).** The partition list consists of exactly one singleton
partition per hot family present in the registry (in registry order), plus one
residual partition whose family-name content is exactly the remaining names —
though as a Python list the residual additionally contains one empty-list
placeholder per hot family present (matching no family name).  A large
unimolecular or bimolecular tuple yields exactly one task per partition, and for
a duplicate-free registry no family name occurs in two distinct partitions. -/
theorem splitList_structure (registry : List String) (s1 s2 : Species)
    (hnd : registry.Nodup) (h1 : spcLarge s1 = true) :
    (splitParts registry).1 =
      (registry.filter (fun s => isHot s)).map (fun s => [FamEntry.fam s]) ∧
    famNames (splitParts registry).2 = registry.filter (fun s => !isHot s) ∧
    (splitParts registry).2.count FamEntry.blank =
      (registry.filter (fun s => isHot s)).length ∧
    ((splitList registry).map famNames).Pairwise (fun l1 l2 => ∀ s ∈ l1, s ∉ l2) ∧
    appendFamilies (splitList registry) (splitListOrig registry) [[s1]] none =
      .ok ((splitList registry).map (mkTask [s1])) ∧
    appendFamilies (splitList registry) (splitListOrig registry) [[s1, s2]] none =
      .ok ((splitList registry).map (mkTask [s1, s2])) := by
  refine ⟨splitParts_fst registry, splitParts_snd_names registry,
    splitParts_snd_blanks registry, splitList_names_disjoint registry hnd, ?_, ?_⟩
  · simp [appendFamilies, branchTasks, h1]
  · simp [appendFamilies, branchTasks, h1]

/-- **C5 witness.** Registry `["H_Abstraction", "X"]` and an 11-character species
string form. -/
theorem splitList_structure_witness :
    appendFamilies (splitList ["H_Abstraction", "X"])
        (splitListOrig ["H_Abstraction", "X"]) [[Species.mk true "ABCDEFGHIJK"]]
        none =
      .ok ((splitList ["H_Abstraction", "X"]).map (mkTask [Species.mk true "ABCDEFGHIJK"])) :=
  (splitList_structure ["H_Abstraction", "X"] (Species.mk true "ABCDEFGHIJK")
    (Species.mk true "B") (by decide) (by decide)).2.2.2.2.1

/-- **C1 (code bug).** Line 221 tests `len(tmpk) == 3` where the symmetric
branches test `len(tmpj)`; `tmpk` holds a leftover value of a previous iteration.
Concretely, with one reactive species `A`, `uni[0]` set and `tri[0][0][0]` set,
the enumeration produces tuples `(A)` and `(A, A, A)`; processing `(A)` leaves
`tmpk` of length 2, so the trimolecular tuple matches no branch and is silently
dropped: no task at all is created for it, and the union of family subsets over
its tasks is empty, not the registry.  If the trimolecular tuple comes first,
`tmpk` is unbound and the loop raises `UnboundLocalError`. -/
theorem trimolecular_tuple_dropped :
    buildTuples (fun _ => Species.mk true "A") 1 (fun _ => true) (fun _ _ => false)
        (some fun _ _ _ => true) =
      [[Species.mk true "A"],
       [Species.mk true "A", Species.mk true "A", Species.mk true "A"]] ∧
    appendFamilies (splitList ["H_Abstraction", "X"])
        (splitListOrig ["H_Abstraction", "X"])
        [[Species.mk true "A"],
         [Species.mk true "A", Species.mk true "A", Species.mk true "A"]] none =
      .ok [[TaskElem.spc (Species.mk true "A"),
            TaskElem.fams [FamEntry.fam "H_Abstraction", FamEntry.fam "X"]]] ∧
    appendFamilies (splitList ["H_Abstraction", "X"])
        (splitListOrig ["H_Abstraction", "X"])
        [[Species.mk true "A", Species.mk true "A", Species.mk true "A"]] none =
      .error (PyErr.named "UnboundLocalError"
        "local variable tmpk referenced before assignment") := by
  refine ⟨by decide, by rfl, by rfl⟩

/-- `p.map(reactSpecies, spcTuples)` of lines 91–98: the pool evaluates the task
function on every task and blocks until done; if a task raises, the `map` call
re-raises that error and yields no result list; otherwise the results preserve
submission order.  (The task function is a parameter: reaction generation calls
the external kinetics engine.) -/
def poolMap {β : Type} (engine : List TaskElem → Except PyErr (List β)) :
    List (List TaskElem) → Except PyErr (List (List β))
  | [] => .ok []
  | t :: ts =>
    match engine t with
    | .error e => .error e
    | .ok rs =>
      match poolMap engine ts with
      | .error e => .error e
      | .ok rss => .ok (rs :: rss)

/-- The dispatch-and-flatten part of `react` (lines 88–100): the pool map followed
by `itertools.chain.from_iterable(reactions)`.  The worker-count computation
affects only parallelism, never the returned value. -/
def reactDispatch {β : Type} (engine : List TaskElem → Except PyErr (List β))
    (tasks : List (List TaskElem)) : Except PyErr (List β) :=
  match poolMap engine tasks with
  | .error e => .error e
  | .ok rss => .ok rss.flatten

/-- `reactAll` end to end (lines 119–239): enumerate the tuples, build the
partitions from the registry, append a family list per tuple, dispatch through
`react`, and return the flat reaction list. -/
def reactAllModel {β : Type} (engine : List TaskElem → Except PyErr (List β))
    (registry : List String) (spc : Nat → Species) (n : Nat) (uni : Nat → Bool)
    (bi : Nat → Nat → Bool) (tri : Option (Nat → Nat → Nat → Bool)) :
    Except PyErr (List β) :=
  match appendFamilies (splitList registry) (splitListOrig registry)
      (buildTuples spc n uni bi tri) none with
  | .error e => .error e
  | .ok tasks => reactDispatch engine tasks

theorem poolMap_append_fail {β : Type} (engine : List TaskElem → Except PyErr (List β))
    (pre post : List (List TaskElem)) (t : List TaskElem) (e : PyErr)
    (hok : ∀ u ∈ pre, ∃ rs, engine u = .ok rs) (hfail : engine t = .error e) :
    poolMap engine (pre ++ t :: post) = .error e := by
  induction pre with
  | nil =>
    simp only [List.nil_append, poolMap, hfail]
  | cons u pre' ih =>
    obtain ⟨rs, hrs⟩ := hok u (List.mem_cons_self u pre')
    have htail := ih fun v hv => hok v (List.mem_cons_of_mem u hv)
    simp only [List.cons_append, poolMap, hrs, List.append_eq, htail]

/-- **C6.** If every task before `t` succeeds and task `t` raises `e`, the pool
map returns exactly that error: `react` raises the same error and delivers no
reactions at all — none from `t`, none from the tasks after it, and none from the
tasks that completed before it — and the whole `reactAll` invocation raises the
same error. -/
theorem dispatch_error_propagation {β : Type}
    (engine : List TaskElem → Except PyErr (List β))
    (pre post : List (List TaskElem)) (t : List TaskElem) (e : PyErr)
    (hok : ∀ u ∈ pre, ∃ rs, engine u = .ok rs) (hfail : engine t = .error e) :
    reactDispatch engine (pre ++ t :: post) = .error e ∧
    ∀ (registry : List String) (spc : Nat → Species) (n : Nat) (uni : Nat → Bool)
      (bi : Nat → Nat → Bool) (tri : Option (Nat → Nat → Nat → Bool)),
      appendFamilies (splitList registry) (splitListOrig registry)
          (buildTuples spc n uni bi tri) none = .ok (pre ++ t :: post) →
      reactAllModel engine registry spc n uni bi tri = .error e := by
  have hpool := poolMap_append_fail engine pre post t e hok hfail
  constructor
  · simp only [reactDispatch, hpool]
  · intro registry spc n uni bi tri htasks
    simp only [reactAllModel, htasks, reactDispatch, hpool]

/-- **C6 witness.** One failing task between two succeeding ones. -/
theorem dispatch_error_propagation_witness :
    reactDispatch
        (fun task => if task.length = 0
          then (Except.error (PyErr.named "KeyError" "boom") : Except PyErr (List Nat))
          else Except.ok [1])
        ([[TaskElem.fams []]] ++ [] :: [[TaskElem.fams []]]) =
      .error (PyErr.named "KeyError" "boom") :=
  (dispatch_error_propagation
    (fun task => if task.length = 0
      then (Except.error (PyErr.named "KeyError" "boom") : Except PyErr (List Nat))
      else Except.ok [1])
    [[TaskElem.fams []]] [[TaskElem.fams []]] [] (PyErr.named "KeyError" "boom")
    (by intro u hu; simp at hu; subst hu; exact ⟨[1], rfl⟩) rfl).1

/-- Deep copy at the value level: a deep copy of a species is an equal value.
(Aliasing and mutation are treated in the heap model below.) -/
def copySpeciesValue (s : Species) : Species := s

/-- `reactSpecies` (lines 103–116): split the heterogeneous task into its species
part `speciesTupleTmp[0:-1]` and family part `speciesTupleTmp[-1]`, deep-copy the
species, and call the kinetics engine restricted to `only_families=own_families`.
In the tasks `reactAll` builds, the initial segment holds only species and the
last element is always the family list; the `filterMap`/`match` below merely
decode the heterogeneous Python list. -/
def reactSpecies {β : Type} (engineF : List Species → List FamEntry → List β)
    (task : List TaskElem) : List β :=
  let speciesTuple := task.dropLast.filterMap fun e =>
    match e with
    | TaskElem.spc s => some (copySpeciesValue s)
    | TaskElem.fams _ => none
  let own_families :=
    match task.getLast? with
    | some (TaskElem.fams l) => l
    | _ => []
  engineF speciesTuple own_families

theorem filterMap_spc_decode (t : List Species) :
    (t.map TaskElem.spc).filterMap
      (fun e => match e with
        | TaskElem.spc s => some (copySpeciesValue s)
        | TaskElem.fams _ => none) = t := by
  induction t with
  | nil => rfl
  | cons s rest ih => simp [copySpeciesValue] at ih ⊢; exact ih

theorem reactSpecies_mkTask {β : Type}
    (engineF : List Species → List FamEntry → List β) (t : List Species)
    (p : List FamEntry) :
    reactSpecies engineF (mkTask t p) = engineF t p := by
  have hdrop : (mkTask t p).dropLast = t.map TaskElem.spc := by
    simp [mkTask]
  have hlast : (mkTask t p).getLast? = some (TaskElem.fams p) := by
    simp [mkTask]
  rw [reactSpecies, hdrop, hlast, filterMap_spc_decode]

theorem famNames_flatten (ps : List (List FamEntry)) :
    famNames ps.flatten = (ps.map famNames).flatten := by
  induction ps with
  | nil => rfl
  | cons p rest ih => simp [famNames_append, ih]

theorem engineF_empty {β : Type} (engineF : List Species → List FamEntry → List β)
    (hAdd : ∀ (u : List Species) (l1 l2 : List FamEntry),
      (∀ s ∈ famNames l1, s ∉ famNames l2) →
      engineF u (l1 ++ l2) = engineF u l1 ++ engineF u l2)
    (u : List Species) : engineF u [] = [] := by
  have h := hAdd u [] [] (by simp [famNames])
  simp only [List.nil_append] at h
  have hlen := congrArg List.length h
  simp only [List.length_append] at hlen
  exact List.eq_nil_of_length_eq_zero (by omega)

theorem engineF_flatten {β : Type} (engineF : List Species → List FamEntry → List β)
    (hAdd : ∀ (u : List Species) (l1 l2 : List FamEntry),
      (∀ s ∈ famNames l1, s ∉ famNames l2) →
      engineF u (l1 ++ l2) = engineF u l1 ++ engineF u l2)
    (u : List Species) (ps : List (List FamEntry))
    (hdisj : (ps.map famNames).Pairwise (fun l1 l2 => ∀ s ∈ l1, s ∉ l2)) :
    engineF u ps.flatten = (ps.map (engineF u)).flatten := by
  induction ps with
  | nil => simpa using engineF_empty engineF hAdd u
  | cons p rest ih =>
    rw [List.map_cons, List.pairwise_cons] at hdisj
    have hd : ∀ s ∈ famNames p, s ∉ famNames rest.flatten := by
      intro s hs
      rw [famNames_flatten]
      intro hmem
      rw [List.mem_flatten] at hmem
      obtain ⟨l, hl, hsl⟩ := hmem
      exact hdisj.1 l hl s hs hsl
    calc engineF u (p :: rest).flatten
        = engineF u (p ++ rest.flatten) := by rw [List.flatten_cons]
      _ = engineF u p ++ engineF u rest.flatten := hAdd u p rest.flatten hd
      _ = engineF u p ++ ((rest.map (engineF u)).flatten) := by rw [ih hdisj.2]
      _ = ((p :: rest).map (engineF u)).flatten := by rw [List.map_cons, List.flatten_cons]

/-- **C7.** With a deterministic engine that is additive over name-disjoint family
subsets and depends on the subset only up to a permutation of its family names,
the dispatch output of `react` is the order-preserving concatenation of the
per-task reaction lists in submission order; and for any tuple, running it once
per partition yields the same multiset of reactions as the single full-registry
task — no reaction dropped, none duplicated. -/
theorem split_tasks_same_reactions {β : Type}
    (engineF : List Species → List FamEntry → List β) (registry : List String)
    (t : List Species) (hnd : registry.Nodup)
    (hAdd : ∀ (u : List Species) (l1 l2 : List FamEntry),
      (∀ s ∈ famNames l1, s ∉ famNames l2) →
      engineF u (l1 ++ l2) = engineF u l1 ++ engineF u l2)
    (hPerm : ∀ (u : List Species) (l1 l2 : List FamEntry),
      List.Perm (famNames l1) (famNames l2) →
      List.Perm (engineF u l1) (engineF u l2)) :
    (∀ tasks : List (List TaskElem),
      reactDispatch (fun task => .ok (reactSpecies engineF task)) tasks =
        .ok ((tasks.map (reactSpecies engineF)).flatten)) ∧
    List.Perm
      (((splitList registry).map
          (fun p => reactSpecies engineF (mkTask t p))).flatten)
      (reactSpecies engineF (mkTask t (splitListOrig registry))) := by
  constructor
  · intro tasks
    have hpool : poolMap (fun task => .ok (reactSpecies engineF task)) tasks =
        .ok (tasks.map (reactSpecies engineF)) := by
      induction tasks with
      | nil => rfl
      | cons u us ih => simp only [poolMap, ih, List.map_cons]
    simp only [reactDispatch, hpool]
  · have hmk : (splitList registry).map (fun p => reactSpecies engineF (mkTask t p)) =
        (splitList registry).map (engineF t) := by
      exact List.map_congr_left fun p _ => reactSpecies_mkTask engineF t p
    rw [hmk, reactSpecies_mkTask,
      ← engineF_flatten engineF hAdd t (splitList registry)
        (splitList_names_disjoint registry hnd)]
    apply hPerm
    rw [famNames_flatten, famNames_splitListOrig]
    exact splitList_names_perm registry

/-- **C7 witness.** The name-collecting engine over registry
`["H_Abstraction", "X"]`: splitting and the single task agree up to permutation. -/
theorem split_tasks_same_reactions_witness :
    List.Perm
      (((splitList ["H_Abstraction", "X"]).map
          (fun p => reactSpecies (fun _ l => famNames l)
            (mkTask [Species.mk true "A"] p))).flatten)
      (reactSpecies (fun _ l => famNames l)
        (mkTask [Species.mk true "A"] (splitListOrig ["H_Abstraction", "X"]))) :=
  (split_tasks_same_reactions (fun _ l => famNames l) ["H_Abstraction", "X"]
    [Species.mk true "A"] (by decide)
    (fun _ l1 l2 _ => famNames_append l1 l2)
    (fun _ _ _ h => h)).2

/-- The mutable payload of a species object, for the aliasing analysis of
`reactSpecies` (data as in `Species`). -/
structure SpeciesData where
  reactive : Bool
  label : String
deriving DecidableEq, Repr

/-- The heap of species objects, addressed by allocation index; the caller's core
species list is a list of references into it. -/
abbrev Heap := List SpeciesData

/-- `spc.copy(deep=True)` (line 112): allocate a fresh object holding a copy of
the data; returns the extended heap and the fresh reference. -/
def copyDeep (h : Heap) (r : Nat) : Heap × Nat :=
  (h ++ [h.getD r ⟨false, ""⟩], h.length)

/-- `tuple([spc.copy(deep=True) for spc in speciesTuple])` (line 112), copying in
tuple order. -/
def copyAll (h : Heap) : List Nat → Heap × List Nat
  | [] => (h, [])
  | r :: rs =>
    let c := copyDeep h r
    let rest := copyAll c.1 rs
    (rest.1, c.2 :: rest.2)

/-- `reactSpecies` at the heap level (lines 109–114): deep-copy the task's species
and hand only the fresh copies — never the caller's references — to the family
engine, which may mutate the heap at the references it receives and allocate. -/
def reactSpeciesHeap {β : Type}
    (engine : Heap → List Nat → List FamEntry → Heap × List β)
    (h : Heap) (tup : List Nat) (fams : List FamEntry) : Heap × List β :=
  let c := copyAll h tup
  engine c.1 c.2 fams

/-- The dispatch of all tasks threading one heap: a conservative sequential model
of the pool (the real pool gives each worker process a private copy of the
caller's objects, which only strengthens the frame property proved below). -/
def runTasksHeap {β : Type}
    (engine : Heap → List Nat → List FamEntry → Heap × List β)
    (h : Heap) : List (List Nat × List FamEntry) → Heap × List (List β)
  | [] => (h, [])
  | task :: rest =>
    let r1 := reactSpeciesHeap engine h task.1 task.2
    let r2 := runTasksHeap engine r1.1 rest
    (r2.1, r1.2 :: r2.2)

theorem copyAll_fresh (tup : List Nat) (h : Heap) :
    ∀ ρ ∈ (copyAll h tup).2, h.length ≤ ρ := by
  induction tup generalizing h with
  | nil => intro ρ hρ; exact absurd hρ (List.not_mem_nil ρ)
  | cons r rs ih =>
    intro ρ hρ
    rw [copyAll] at hρ
    rcases List.mem_cons.mp hρ with hρ | hρ
    · subst hρ; exact le_rfl
    · have := ih (h ++ [h.getD r ⟨false, ""⟩]) ρ hρ
      simp only [List.length_append, List.length_cons, List.length_nil] at this
      omega

theorem copyAll_preserves (tup : List Nat) (h : Heap) (r : Nat)
    (hr : r < h.length) : ((copyAll h tup).1)[r]? = h[r]? := by
  induction tup generalizing h with
  | nil => rfl
  | cons ρ rs ih =>
    rw [copyAll]
    have hgrow : r < (h ++ [h.getD ρ ⟨false, ""⟩]).length := by
      simp only [List.length_append, List.length_cons, List.length_nil]
      omega
    show ((copyAll (copyDeep h ρ).1 rs).1)[r]? = h[r]?
    simp only [copyDeep]
    rw [ih (h ++ [h.getD ρ ⟨false, ""⟩]) hgrow]
    exact List.getElem?_append_left hr

/-- **C8.** `reactAll` never mutates the caller's species.  The family engine is
invoked only on fresh deep copies made inside `reactSpecies` — every reference
handed to the engine lies outside the caller's heap — so for any engine that
mutates only the objects it is given, after all tasks have run every caller
reference still reads its original data: the caller's core species list and
every species in it are unchanged. -/
theorem reactAll_no_mutation {β : Type}
    (engine : Heap → List Nat → List FamEntry → Heap × List β)
    (hframe : ∀ (h : Heap) (refs : List Nat) (fams : List FamEntry) (r : Nat),
      r ∉ refs → ((engine h refs fams).1)[r]? = h[r]?)
    (tasks : List (List Nat × List FamEntry)) (h : Heap) (r : Nat)
    (hr : r < h.length) :
    ((runTasksHeap engine h tasks).1)[r]? = h[r]? ∧
    ∀ tup : List Nat, ∀ ρ ∈ (copyAll h tup).2, h.length ≤ ρ := by
  refine ⟨?_, fun tup => copyAll_fresh tup h⟩
  induction tasks generalizing h r with
  | nil => rfl
  | cons task rest ih =>
    rw [runTasksHeap]
    have hcopy : ((copyAll h task.1).1)[r]? = h[r]? := copyAll_preserves task.1 h r hr
    have hfresh : r ∉ (copyAll h task.1).2 := by
      intro hmem
      exact absurd (copyAll_fresh task.1 h r hmem) (by omega)
    have hstep : ((reactSpeciesHeap engine h task.1 task.2).1)[r]? = h[r]? := by
      rw [reactSpeciesHeap]
      rw [hframe (copyAll h task.1).1 (copyAll h task.1).2 task.2 r hfresh]
      exact hcopy
    have hsome : ∃ d, h[r]? = some d := by
      rcases List.getElem?_eq_some_iff.mpr ⟨hr, rfl⟩ with hx
      exact ⟨h[r], hx⟩
    obtain ⟨d, hd⟩ := hsome
    have hlt : r < ((reactSpeciesHeap engine h task.1 task.2).1).length := by
      rcases List.getElem?_eq_some_iff.mp (hstep.trans hd) with ⟨hl, _⟩
      exact hl
    rw [ih (reactSpeciesHeap engine h task.1 task.2).1 r hlt]
    exact hstep

/-- A test engine that overwrites every species object it is handed. -/
def mutEngine : Heap → List Nat → List FamEntry → Heap × List Nat :=
  fun hh refs _ =>
    (refs.foldl (fun acc ρ => acc.set ρ (SpeciesData.mk false "MUT")) hh, [])

theorem foldl_set_frame (d : SpeciesData) (refs : List Nat) :
    ∀ (hh : Heap) (r : Nat), r ∉ refs →
      (refs.foldl (fun acc ρ => acc.set ρ d) hh)[r]? = hh[r]? := by
  induction refs with
  | nil => intro hh r _; rfl
  | cons ρ rest ih =>
    intro hh r hr
    rw [List.foldl_cons]
    rw [ih (hh.set ρ d) r fun hmem => hr (List.mem_cons_of_mem ρ hmem)]
    refine List.getElem?_set_ne ?_
    intro heq
    apply hr
    rw [← heq]
    exact List.mem_cons_self ρ rest

/-- **C8 witness.** A two-species caller heap and a task that hands species 0 to
the overwriting engine: the caller's object 0 is unchanged after dispatch. -/
theorem reactAll_no_mutation_witness :
    ((runTasksHeap mutEngine [SpeciesData.mk true "A", SpeciesData.mk true "B"]
        [([0], [])]).1)[0]? =
      [SpeciesData.mk true "A", SpeciesData.mk true "B"][0]? :=
  (reactAll_no_mutation mutEngine
    (fun h refs fams r hr => foldl_set_frame (SpeciesData.mk false "MUT") refs h r hr)
    [([0], [])] [SpeciesData.mk true "A", SpeciesData.mk true "B"] 0
    (by decide)).1

/-- The identity of a Python exception raised by an external LP-library call: its
type name and `str(e)` message. -/
structure PyExc where
  typeName : String
  msg : String
deriving DecidableEq, Repr

/-- An exception escaping a Clar-LP wrapper: either the `ILPSolutionError`
constructed at lines 43–44 / 84–85 of `clar_lp.py`, or an exception of the
underlying library re-raised unchanged (`raise e`). -/
inductive ClarErr where
  | ilpSolutionError (msg : String)
  | raised (e : PyExc)
deriving DecidableEq, Repr

/-- The message of the `ILPSolutionError` constructed by both backends
(lines 43–44 and 84–85, a two-part string literal). -/
def ilpMsg : String :=
  "Unable to add constraint, likely due to " ++
    "inconsistent aromatic ring perception."

/-- The lpsolve55 library as consumed by `solve_clar_lp_lpsolve`: an opaque
mutable LP object of type `σ` threaded through the calls.  `add_constraint` may
raise; `solve` returns the solver's status code; `get_solution` yields the pair
`(obj_val, solution)` (elements 0 and 1 of the returned tuple). -/
structure LpSolveLib (σ : Type) where
  make_lp : Nat → Nat → σ
  set_verbose : σ → Int → σ
  set_obj_fn : σ → List ℚ → σ
  set_maxim : σ → σ
  set_mat : σ → List (List ℚ) → σ
  set_rh_vec : σ → List ℚ → σ
  set_constr_type : σ → List String → σ
  set_binary : σ → List Bool → σ
  set_bounds : σ → Nat → ℚ → ℚ → σ
  add_constraint : σ → List ℚ → String → ℚ → Except PyExc σ
  solve : σ → σ × Int
  get_solution : σ → ℚ × List ℚ
  delete_lp : σ → σ

/-- Lines 70–73: `for i in range(l, n): if exo[i - l] is not None:
lpsolve('set_bounds', lp, i + 1, exo[i - l], exo[i - l])`. -/
def setExoBounds {σ : Type} (lib : LpSolveLib σ) (l n : Nat)
    (exo : List (Option ℚ)) (s : σ) : σ :=
  (xrangeFrom l n).foldl
    (fun st i =>
      match exo.getD (i - l) none with
      | some v => lib.set_bounds st (i + 1) v v
      | none => st) s

/-- Lines 76–87: the optional-constraint loop with its `except` handler.  On the
first raising `add_constraint`: if `str(e) == 'invalid vector.'` an
`ILPSolutionError` is raised, otherwise `e` is re-raised unchanged; the
constraints after the failing one are never attempted. -/
def addConstraintsLpsolve {σ : Type} (lib : LpSolveLib σ) :
    σ → List (List ℚ × ℚ) → Except ClarErr σ
  | s, [] => .ok s
  | s, c :: cs =>
    match lib.add_constraint s c.1 "<=" c.2 with
    | .ok s2 => addConstraintsLpsolve lib s2 cs
    | .error e =>
      if e.msg = "invalid vector." then
        .error (ClarErr.ilpSolutionError ilpMsg)
      else
        .error (ClarErr.raised e)

/-- `solve_clar_lp_lpsolve` (lines 58–96).  `if status: status = 0` at lines
90–91 is Python truthiness on the int status code. -/
def solve_clar_lp_lpsolve {σ : Type} (lib : LpSolveLib σ) (objective : List ℚ)
    (a : List (List ℚ)) (l m n : Nat) (exo : List (Option ℚ))
    (constraints : Option (List (List ℚ × ℚ))) :
    Except ClarErr (Int × ℚ × List ℚ) :=
  let lp := lib.make_lp m n
  let lp := lib.set_verbose lp 2
  let lp := lib.set_obj_fn lp objective
  let lp := lib.set_maxim lp
  let lp := lib.set_mat lp a
  let lp := lib.set_rh_vec lp (List.replicate m 1)
  let lp := lib.set_constr_type lp (List.replicate m "=")
  let lp := lib.set_binary lp (List.replicate n true)
  let lp := setExoBounds lib l n exo lp
  match
    (match constraints with
     | none => .ok lp
     | some cs => addConstraintsLpsolve lib lp cs : Except ClarErr σ) with
  | .error e => .error e
  | .ok lp =>
    let sv := lib.solve lp
    let status : Int := if sv.2 ≠ 0 then 0 else sv.2
    let gs := lib.get_solution sv.1
    let _ := lib.delete_lp sv.1
    .ok (status, gs.1, gs.2)

/-- The pyomo modelling layer as consumed by `solve_clar_lp_pyomo`, collapsed to
the operations the function performs on the opaque model object: building the
model with variables, parameters, objective and the `m` equality constraints
(lines 11–26); fixing an exocyclic variable (line 31); adding one inequality to
the `ConstraintList` (line 38, may raise); solving and reading solver status,
objective value and variable values (lines 48–53). -/
structure PyomoLib (τ : Type) where
  buildModel : List ℚ → List (List ℚ) → Nat → Nat → τ
  fix : τ → Nat → ℚ → τ
  addLeq : τ → List ℚ → ℚ → Except PyExc τ
  solveOk : τ → Bool
  objValue : τ → ℚ
  extractValues : τ → List ℚ

/-- Lines 34–46: the same optional-constraint loop and handler in the pyomo
backend. -/
def addConstraintsPyomo {τ : Type} (lib : PyomoLib τ) :
    τ → List (List ℚ × ℚ) → Except ClarErr τ
  | s, [] => .ok s
  | s, c :: cs =>
    match lib.addLeq s c.1 c.2 with
    | .ok s2 => addConstraintsPyomo lib s2 cs
    | .error e =>
      if e.msg = "invalid vector." then
        .error (ClarErr.ilpSolutionError ilpMsg)
      else
        .error (ClarErr.raised e)

/-- `solve_clar_lp_pyomo` (lines 9–55): model construction, exocyclic fixing,
optional constraints, then `status = result.solver.status == SolverStatus.ok`
and value extraction. -/
def solve_clar_lp_pyomo {τ : Type} (lib : PyomoLib τ) (objective : List ℚ)
    (a : List (List ℚ)) (l m n : Nat) (exo : List (Option ℚ))
    (constraints : Option (List (List ℚ × ℚ))) :
    Except ClarErr (Bool × ℚ × List ℚ) :=
  let lp := lib.buildModel objective a m n
  let lp := (xrangeFrom l n).foldl
    (fun st k =>
      match exo.getD (k - l) none with
      | some v => lib.fix st k v
      | none => st) lp
  match
    (match constraints with
     | none => .ok lp
     | some cs => addConstraintsPyomo lib lp cs : Except ClarErr τ) with
  | .error e => .error e
  | .ok lp => .ok (lib.solveOk lp, lib.objValue lp, lib.extractValues lp)

/-- **C9.** Whenever `solve_clar_lp_lpsolve` returns rather than raising, the
status component of its result equals 0, whatever status code the solver
reported: `if status: status = 0` zeroes every nonzero code and a zero code is
already 0, so the returned status carries no information about the solve
outcome. -/
theorem solve_clar_lp_lpsolve_status_zero {σ : Type} (lib : LpSolveLib σ)
    (objective : List ℚ) (a : List (List ℚ)) (l m n : Nat)
    (exo : List (Option ℚ)) (constraints : Option (List (List ℚ × ℚ)))
    (r : Int × ℚ × List ℚ)
    (hret : solve_clar_lp_lpsolve lib objective a l m n exo constraints = .ok r) :
    r.1 = 0 := by
  rw [solve_clar_lp_lpsolve.eq_def] at hret
  split at hret
  · dsimp only at hret
    injection hret with hret
    rw [← hret]
    dsimp only
    split
    · rfl
    · omega
  · dsimp only at hret
    split at hret
    · exact Except.noConfusion hret
    · injection hret with hret
      rw [← hret]
      dsimp only
      split
      · rfl
      · omega

/-- A trivial concrete lpsolve backend whose solver reports the nonzero status
code 5. -/
def unitLpLib : LpSolveLib Unit where
  make_lp _ _ := ()
  set_verbose s _ := s
  set_obj_fn s _ := s
  set_maxim s := s
  set_mat s _ := s
  set_rh_vec s _ := s
  set_constr_type s _ := s
  set_binary s _ := s
  set_bounds s _ _ _ := s
  add_constraint s _ _ _ := .ok s
  solve s := (s, 5)
  get_solution _ := (0, [])
  delete_lp s := s

/-- **C9 witness.** The trivial backend reports status 5; the wrapper returns
status 0. -/
theorem solve_clar_lp_lpsolve_status_zero_witness :
    solve_clar_lp_lpsolve unitLpLib [] [] 0 0 0 [] none = .ok (0, 0, []) ∧
    ((0 : Int), (0 : ℚ), ([] : List ℚ)).1 = 0 :=
  ⟨rfl, solve_clar_lp_lpsolve_status_zero unitLpLib [] [] 0 0 0 [] none
    (0, 0, []) rfl⟩

theorem addConstraintsLpsolve_error_dichotomy {σ : Type} (lib : LpSolveLib σ) :
    ∀ (cs : List (List ℚ × ℚ)) (s : σ) (err : ClarErr),
      addConstraintsLpsolve lib s cs = .error err →
      err = .ilpSolutionError ilpMsg ∨
        ∃ e, err = .raised e ∧ e.msg ≠ "invalid vector." := by
  intro cs
  induction cs with
  | nil => intro s err h; exact Except.noConfusion h
  | cons c rest ih =>
    intro s err h
    rw [addConstraintsLpsolve] at h
    split at h
    · exact ih _ err h
    · split at h
      · injection h with h; exact Or.inl h.symm
      · injection h with h
        rename_i e _ hne
        exact Or.inr ⟨e, h.symm, hne⟩

theorem addConstraintsPyomo_error_dichotomy {τ : Type} (lib : PyomoLib τ) :
    ∀ (cs : List (List ℚ × ℚ)) (s : τ) (err : ClarErr),
      addConstraintsPyomo lib s cs = .error err →
      err = .ilpSolutionError ilpMsg ∨
        ∃ e, err = .raised e ∧ e.msg ≠ "invalid vector." := by
  intro cs
  induction cs with
  | nil => intro s err h; exact Except.noConfusion h
  | cons c rest ih =>
    intro s err h
    rw [addConstraintsPyomo] at h
    split at h
    · exact ih _ err h
    · split at h
      · injection h with h; exact Or.inl h.symm
      · injection h with h
        rename_i e _ hne
        exact Or.inr ⟨e, h.symm, hne⟩

/-- **C10.** In both backends: without caller-supplied constraints no exception
is raised at all (so no `ILPSolutionError` arises on any other path); a raising
constraint addition yields `ILPSolutionError` exactly when the raised exception's
message is `'invalid vector.'`, and re-raises the exception unchanged otherwise;
consequently every error escaping either wrapper is the fixed `ILPSolutionError`
or an unchanged library exception whose message is not `'invalid vector.'`. -/
theorem clar_ilp_error_iff {σ τ : Type} (libL : LpSolveLib σ) (libP : PyomoLib τ)
    (objective : List ℚ) (a : List (List ℚ)) (l m n : Nat)
    (exo : List (Option ℚ)) :
    (∃ r, solve_clar_lp_lpsolve libL objective a l m n exo none = .ok r) ∧
    (∃ r, solve_clar_lp_pyomo libP objective a l m n exo none = .ok r) ∧
    (∀ (s : σ) (c : List ℚ × ℚ) (cs : List (List ℚ × ℚ)) (e : PyExc),
      libL.add_constraint s c.1 "<=" c.2 = .error e →
      addConstraintsLpsolve libL s (c :: cs) =
        (if e.msg = "invalid vector."
         then .error (ClarErr.ilpSolutionError ilpMsg)
         else .error (ClarErr.raised e))) ∧
    (∀ (t : τ) (c : List ℚ × ℚ) (cs : List (List ℚ × ℚ)) (e : PyExc),
      libP.addLeq t c.1 c.2 = .error e →
      addConstraintsPyomo libP t (c :: cs) =
        (if e.msg = "invalid vector."
         then .error (ClarErr.ilpSolutionError ilpMsg)
         else .error (ClarErr.raised e))) ∧
    (∀ (cs : List (List ℚ × ℚ)) (err : ClarErr),
      solve_clar_lp_lpsolve libL objective a l m n exo (some cs) = .error err →
      err = .ilpSolutionError ilpMsg ∨
        ∃ e, err = .raised e ∧ e.msg ≠ "invalid vector.") ∧
    (∀ (cs : List (List ℚ × ℚ)) (err : ClarErr),
      solve_clar_lp_pyomo libP objective a l m n exo (some cs) = .error err →
      err = .ilpSolutionError ilpMsg ∨
        ∃ e, err = .raised e ∧ e.msg ≠ "invalid vector.") := by
  refine ⟨⟨_, rfl⟩, ⟨_, rfl⟩, ?_, ?_, ?_, ?_⟩
  · intro s c cs e he
    rw [addConstraintsLpsolve, he]
  · intro t c cs e he
    rw [addConstraintsPyomo, he]
  · intro cs err h
    rw [solve_clar_lp_lpsolve.eq_def] at h
    dsimp only at h
    split at h
    · injection h with h
      rename_i e heq
      exact addConstraintsLpsolve_error_dichotomy libL cs _ err (h ▸ heq)
    · exact Except.noConfusion h
  · intro cs err h
    rw [solve_clar_lp_pyomo.eq_def] at h
    dsimp only at h
    split at h
    · injection h with h
      rename_i e heq
      exact addConstraintsPyomo_error_dichotomy libP cs _ err (h ▸ heq)
    · exact Except.noConfusion h

/-- A concrete lpsolve backend raising on designated constraints: rhs 1 raises
with message `'invalid vector.'`, rhs 2 with another message. -/
def failingLpLib : LpSolveLib Unit where
  make_lp _ _ := ()
  set_verbose s _ := s
  set_obj_fn s _ := s
  set_maxim s := s
  set_mat s _ := s
  set_rh_vec s _ := s
  set_constr_type s _ := s
  set_binary s _ := s
  set_bounds s _ _ _ := s
  add_constraint s _ _ rhs :=
    if rhs = 1 then .error ⟨"TypeError", "invalid vector."⟩
    else if rhs = 2 then .error ⟨"TypeError", "unrelated failure"⟩
    else .ok s
  solve s := (s, 0)
  get_solution _ := (0, [])
  delete_lp s := s

/-- A concrete pyomo backend with the same failing `addLeq` behaviour. -/
def failingPyomoLib : PyomoLib Unit where
  buildModel _ _ _ _ := ()
  fix s _ _ := s
  addLeq s _ rhs :=
    if rhs = 1 then .error ⟨"TypeError", "invalid vector."⟩
    else if rhs = 2 then .error ⟨"TypeError", "unrelated failure"⟩
    else .ok s
  solveOk _ := true
  objValue _ := 0
  extractValues _ := []

/-- **C10 witness.** On the failing backends: the magic message becomes an
`ILPSolutionError`, any other message is re-raised unchanged, in both backends. -/
theorem clar_ilp_error_iff_witness :
    addConstraintsLpsolve failingLpLib () [([], 1)] =
      .error (ClarErr.ilpSolutionError ilpMsg) ∧
    addConstraintsLpsolve failingLpLib () [([], 2)] =
      .error (ClarErr.raised ⟨"TypeError", "unrelated failure"⟩) ∧
    addConstraintsPyomo failingPyomoLib () [([], 1)] =
      .error (ClarErr.ilpSolutionError ilpMsg) ∧
    (∃ r, solve_clar_lp_lpsolve failingLpLib [] [] 0 0 0 [] none = .ok r) := by
  obtain ⟨h1, _, h3, h4, _, _⟩ :=
    clar_ilp_error_iff failingLpLib failingPyomoLib [] [] 0 0 0 []
  refine ⟨?_, ?_, ?_, h1⟩
  · have := h3 () ([], 1) [] ⟨"TypeError", "invalid vector."⟩ rfl
    simpa using this
  · have := h3 () ([], 2) [] ⟨"TypeError", "unrelated failure"⟩ rfl
    simpa using this
  · have := h4 () ([], 1) [] ⟨"TypeError", "invalid vector."⟩ rfl
    simpa using this

end RMG
